import Mathlib

/-!
Verification of the auto_avsr batch scripts (`split_video_audio.py`,
`audio_transcription.py`) against their specification.

Shallow embedding conventions:
* A filesystem path is its list of components (`FPath`); `os.path.join`
  appends components, `os.path.split` is `(dropLast, getLast)`, and
  `os.path.relpath root input_dir` is represented by carrying the relative
  component list directly (the `os.walk` result is modelled as the list of
  directories of the input tree, each given by its path relative to the
  walked root, `[]` standing for the root itself, paired with its file
  names).
* The filesystem is an explicit `FS` state: an association list of files
  (later writes shadow earlier ones) plus the list of existing directories.
* The external collaborators (ffmpeg, whisper) are oracles passed as
  function arguments; `subprocess.run(check=True)` failure and Python
  exceptions raised by `open`/`write` are modelled by Boolean oracles, and
  a raised exception makes the modelled operation return the pre-raise
  state (an interrupted write is modelled as creating no file).
* `json.dump` of the sidecar dict is modelled as storing the structured
  `Sidecar` record; parsing the sidecar back is reading that record.
-/

namespace AutoAvsr

/-- A filesystem path, as its list of components; the string form joins
the components with a separator. -/
abbrev FPath := List String

/-- The string form of a path (what `os.path.join` builds). -/
def joinPath (p : FPath) : String := String.intercalate "/" p

/-- Python `s.endswith(post)`: `post` is a suffix of `s`. -/
def strEndsWith (s post : String) : Bool := post.data.isSuffixOf s.data

/-- Lower-case one character (ASCII range, the case `str.lower` applies
to the letters of the matched file suffixes). -/
def pyLowerChar (c : Char) : Char :=
  if 65 ≤ c.toNat ∧ c.toNat ≤ 90 then Char.ofNat (c.toNat + 32) else c

/-- Python `s.lower()` (ASCII case folding, as used on file names). -/
def pyLower (s : String) : String := String.mk (s.data.map pyLowerChar)

/-- Index of the last occurrence of a character in a list, if any. -/
def lastIdxOf (c : Char) : List Char → Option Nat
  | [] => none
  | a :: as =>
    match lastIdxOf c as with
    | some i => some (i + 1)
    | none => if a = c then some 0 else none

/-- Python `os.path.splitext` on a bare file name: split at the last dot,
except that a name whose characters before that dot are all dots (such as
`.bashrc`) has no extension. -/
def splitext (s : String) : String × String :=
  let cs := s.data
  match lastIdxOf '.' cs with
  | none => (s, "")
  | some d =>
    if (cs.take d).all (fun a => a = '.') then (s, "")
    else (String.mk (cs.take d), String.mk (cs.drop d))

/-- The JSON object written as the transcription sidecar, with the fields
of the dict passed to `json.dump` in `audio_transcription.py`. -/
structure Sidecar where
  audio_file : String
  transcription : String
  language : String
deriving DecidableEq, Repr, Inhabited

/-- Content of a file in the modelled filesystem. -/
inductive Content where
  | text (s : String)
  | json (j : Sidecar)
  | media
deriving DecidableEq, Repr, Inhabited

/-- The filesystem state: files with their content (later writes shadow
earlier entries) and the set of directories. -/
structure FS where
  files : List (FPath × Content)
  dirs : List FPath
deriving DecidableEq, Repr, Inhabited

def FS.fileExists (fs : FS) (p : FPath) : Bool :=
  fs.files.any (fun q => q.1 == p)

def FS.dirExists (fs : FS) (p : FPath) : Bool :=
  fs.dirs.any (fun q => q == p)

/-- Python `os.path.exists`: true for files and for directories. -/
def FS.pathExists (fs : FS) (p : FPath) : Bool :=
  fs.fileExists p || fs.dirExists p

/-- A successful `open(p, "w")`/`write`: the new entry shadows any old one. -/
def FS.write (fs : FS) (p : FPath) (c : Content) : FS :=
  ⟨(p, c) :: fs.files, fs.dirs⟩

/-- Read the current content of a file, if present. -/
def FS.read (fs : FS) (p : FPath) : Option Content :=
  (fs.files.find? (fun q => q.1 == p)).map Prod.snd

/-- All nonempty prefixes of a path: the directories `os.makedirs`
creates. -/
def ancestors (p : FPath) : List FPath :=
  (List.range p.length).map (fun i => p.take (i + 1))

/-- Python `os.makedirs p`: create `p` and every intermediate directory. -/
def FS.makedirs (fs : FS) (p : FPath) : FS :=
  ⟨fs.files, ancestors p ++ fs.dirs⟩

/-- The `if not os.path.exists(d): os.makedirs(d)` idiom. -/
def ensure (fs : FS) (d : FPath) : FS :=
  if fs.pathExists d then fs else fs.makedirs d

/-- The two ffmpeg invocations of `split_video_audio`: extract the video
stream (first) and decode the audio stream (second). -/
inductive DemuxCmd where
  | video
  | audio
deriving DecidableEq, Repr

/-- Errors `split_video_audio` can raise: `FileNotFoundError` from the
explicit precondition check, or `subprocess.CalledProcessError` from a
non-zero ffmpeg exit under `check=True`. -/
inductive SplitErr where
  | fileNotFound (p : FPath)
  | calledProcessError (c : DemuxCmd)
deriving DecidableEq, Repr

/-- Result of one `split_video_audio` call: the returned pair or the
raised error, the collaborator invocations actually performed, and the
filesystem after the call. -/
structure SplitOut where
  res : Except SplitErr (FPath × FPath)
  invoked : List DemuxCmd
  fs : FS

instance : DecidableEq (Except SplitErr (FPath × FPath)) := fun a b =>
  match a, b with
  | .ok x, .ok y => decidable_of_iff (x = y) (by simp)
  | .error x, .error y => decidable_of_iff (x = y) (by simp)
  | .ok _, .error _ => isFalse (by simp)
  | .error _, .ok _ => isFalse (by simp)

/-- Embedding of `split_video_audio(input_file, output_dir=None)` from
`split_video_audio.py`. `dem` tells whether each ffmpeg invocation for
this file exits with code 0; a successful invocation creates its output
file. `output_dir = none` is Python `None`, and the falsy empty path also
falls back to the input file's own directory (`if not output_dir`). -/
def split_video_audio (fs : FS) (dem : DemuxCmd → Bool) (input_file : FPath)
    (output_dir : Option FPath) : SplitOut :=
  if fs.pathExists input_file = false then
    ⟨.error (.fileNotFound input_file), [], fs⟩
  else
    let input_path := input_file.dropLast
    let input_filename := (input_file.getLast?).getD ""
    let filename_without_ext := (splitext input_filename).1
    let outd :=
      match output_dir with
      | none => input_path
      | some d => if d = [] then input_path else d
    let fs1 := ensure fs outd
    let video_output := outd ++ [filename_without_ext ++ "_video.mp4"]
    let audio_output := outd ++ [filename_without_ext ++ "_audio.wav"]
    if dem .video = false then
      ⟨.error (.calledProcessError .video), [.video], fs1⟩
    else
      let fs2 := fs1.write video_output .media
      if dem .audio = false then
        ⟨.error (.calledProcessError .audio), [.video, .audio], fs2⟩
      else
        ⟨.ok (video_output, audio_output), [.video, .audio],
          fs2.write audio_output .media⟩

/-- The walked input tree: every directory under the input root, as its
path relative to that root (`[]` is the root itself) with its file
names. -/
structure InputTree where
  dirs : List (FPath × List String)

/-- Selection predicate of the split job:
`file.lower().endswith(".mp4")`. -/
def isVideoFile (f : String) : Bool :=
  strEndsWith (pyLower f) ".mp4"

/-- Selection predicate of the transcribe job:
`file.lower().endswith(("_audio.wav", ".mp3", ".aac", ".flac"))`
(Python tuple endswith is the disjunction). -/
def isAudioFile (f : String) : Bool :=
  strEndsWith (pyLower f) "_audio.wav" || strEndsWith (pyLower f) ".mp3" ||
  strEndsWith (pyLower f) ".aac" || strEndsWith (pyLower f) ".flac"

/-- The matched files of the split job, in walk order. -/
def videoEntries (tree : InputTree) : List (FPath × String) :=
  tree.dirs.flatMap (fun d => (d.2.filter isVideoFile).map (fun f => (d.1, f)))

/-- The matched files of the transcribe job, in walk order (the list
`audio_files` built by `process_audio_directory`). -/
def audioEntries (tree : InputTree) : List (FPath × String) :=
  tree.dirs.flatMap (fun d => (d.2.filter isAudioFile).map (fun f => (d.1, f)))

/-- PathMirror: the output directory for the input directory at relative
path `rel` (`rel_path == "."` is `rel = []`). -/
def mirrorDir (outDir : FPath) (rel : FPath) : FPath :=
  if rel = [] then outDir else outDir ++ rel

/-- The absolute input path of a matched entry `(rel, file)`. -/
def inputPath (inRoot : FPath) (e : FPath × String) : FPath :=
  inRoot ++ e.1 ++ [e.2]

/-- The transcript text file for an entry: mirrored directory plus
base name (via `splitext`) with extension `.txt`. -/
def txtPath (outDir : FPath) (e : FPath × String) : FPath :=
  mirrorDir outDir e.1 ++ [(splitext e.2).1 ++ ".txt"]

/-- The JSON sidecar file for an entry. -/
def jsonPath (outDir : FPath) (e : FPath × String) : FPath :=
  mirrorDir outDir e.1 ++ [(splitext e.2).1 ++ ".json"]

/-- State of the split batch loop. -/
structure SState where
  fs : FS
  count : Nat
deriving DecidableEq, Repr

/-- One iteration of the split batch loop body for a matched file:
call `split_video_audio` with the mirrored output directory and catch any
exception (`except Exception`), counting only successes. -/
def splitStep (dem : FPath → DemuxCmd → Bool) (inRoot outRoot : FPath)
    (st : SState) (e : FPath × String) : SState :=
  let current_output_dir := mirrorDir outRoot e.1
  let input_file := inputPath inRoot e
  let r := split_video_audio st.fs (dem input_file) input_file (some current_output_dir)
  match r.res with
  | .ok _ => ⟨r.fs, st.count + 1⟩
  | .error _ => ⟨r.fs, st.count⟩

/-- Embedding of `process_directory_recursively(input_dir, output_base_dir)`
from `split_video_audio.py`. -/
def process_directory_recursively (dem : FPath → DemuxCmd → Bool)
    (inRoot outRoot : FPath) (tree : InputTree) (fs : FS) : SState :=
  (videoEntries tree).foldl (splitStep dem inRoot outRoot) ⟨fs, 0⟩

/-- Collaborator oracle of `transcribe_audio_with_whisper`:
`load` models `whisper.load_model("tiny")` (may raise), `infer` models
`model.transcribe(audio_file, language=language)["text"]` (may raise),
as a function of the language hint. -/
structure WhisperOracle where
  load : Except String Unit
  infer : String → Except String String

/-- The body of the `try` block of `transcribe_audio_with_whisper`:
return `""` when the audio file does not exist, otherwise load the model
and run inference; any step may raise. -/
def transcribe_body (fileOk : Bool) (o : WhisperOracle) (language : String) :
    Except String String :=
  if fileOk = false then .ok ""
  else o.load.bind (fun _ => o.infer language)

/-- Embedding of `transcribe_audio_with_whisper(audio_file, language="en")`
from `audio_transcription.py`: the blanket `except Exception` converts any
raised error into the empty-string return. `fileOk` is
`os.path.exists(audio_file)`. -/
def transcribe_audio_with_whisper (fileOk : Bool) (o : WhisperOracle)
    (language : String) : String :=
  match transcribe_body fileOk o language with
  | .ok t => t
  | .error _ => ""

/-- Per-run oracle of the transcribe batch: `transcr` is the (total, by
C7) string returned by `transcribe_audio_with_whisper` on each input
file; `txtOk`/`jsonOk` tell whether the `open`/`write` of the given
output path succeeds or raises. -/
structure TOracle where
  transcr : FPath → String
  txtOk : FPath → Bool
  jsonOk : FPath → Bool

/-- State of the transcribe batch loop; `invoked` records the input files
for which the inference collaborator was invoked. -/
structure TState where
  fs : FS
  count : Nat
  invoked : List FPath
deriving DecidableEq, Repr

/-- One iteration of the transcribe batch loop body for a matched entry,
from `process_audio_directory`: mirror the directory, skip (and count) if
the `.txt` already exists, otherwise transcribe and, when the result is
non-empty, write the `.txt` then the `.json` sidecar and count; a raised
write error is caught by the per-file `except` and leaves the loop. -/
def tStep (o : TOracle) (inRoot outDir : FPath) (st : TState)
    (e : FPath × String) : TState :=
  let dir := mirrorDir outDir e.1
  let fs1 := ensure st.fs dir
  let input_file := inputPath inRoot e
  let output_file := txtPath outDir e
  if fs1.pathExists output_file then
    ⟨fs1, st.count + 1, st.invoked⟩
  else
    let transcription := o.transcr input_file
    if transcription = "" then
      ⟨fs1, st.count, st.invoked ++ [input_file]⟩
    else if o.txtOk output_file = false then
      ⟨fs1, st.count, st.invoked ++ [input_file]⟩
    else
      let fs2 := fs1.write output_file (.text transcription)
      if o.jsonOk (jsonPath outDir e) = false then
        ⟨fs2, st.count, st.invoked ++ [input_file]⟩
      else
        ⟨fs2.write (jsonPath outDir e)
            (.json ⟨joinPath input_file, transcription, "en"⟩),
          st.count + 1, st.invoked ++ [input_file]⟩

/-- Embedding of `process_audio_directory(input_dir, output_dir)` from
`audio_transcription.py`. -/
def process_audio_directory (o : TOracle) (inRoot outDir : FPath)
    (tree : InputTree) (fs : FS) : TState :=
  let fs0 := ensure fs outDir
  (audioEntries tree).foldl (tStep o inRoot outDir) ⟨fs0, 0, []⟩

/-- Whether both ffmpeg invocations for a matched entry succeed: exactly
the condition under which `split_video_audio` returns (rather than
raises) for an existing input file. -/
def splitOk (dem : FPath → DemuxCmd → Bool) (inRoot : FPath)
    (e : FPath × String) : Bool :=
  dem (inputPath inRoot e) .video && dem (inputPath inRoot e) .audio

/-- The video output path `split_video_audio` produces for a matched
entry of the batch. -/
def videoOutPath (outRoot : FPath) (e : FPath × String) : FPath :=
  mirrorDir outRoot e.1 ++ [(splitext e.2).1 ++ "_video.mp4"]

/-- The audio output path `split_video_audio` produces for a matched
entry of the batch. -/
def audioOutPath (outRoot : FPath) (e : FPath × String) : FPath :=
  mirrorDir outRoot e.1 ++ [(splitext e.2).1 ++ "_audio.wav"]

/-- Whether the transcribe batch fully succeeds on an entry that is not
skipped: non-empty transcription and both writes succeed. -/
def goodT (o : TOracle) (inRoot outDir : FPath) (e : FPath × String) : Bool :=
  !(o.transcr (inputPath inRoot e) == "") && o.txtOk (txtPath outDir e) &&
    o.jsonOk (jsonPath outDir e)

/-- After the transcribe batch has visited an entry, one of: its `.txt`
exists, its transcription is the empty sentinel, or its `.txt` write
always raises.  This is the state in which a re-run leaves the
filesystem untouched. -/
def entryDone (o : TOracle) (inRoot outDir : FPath) (fs : FS)
    (e : FPath × String) : Prop :=
  fs.pathExists (txtPath outDir e) = true ∨
  o.transcr (inputPath inRoot e) = "" ∨
  o.txtOk (txtPath outDir e) = false

/-- The mirrored directory of an entry exists (or is the trivial empty
path, on which `os.makedirs` is never needed). -/
def dirReady (outDir : FPath) (fs : FS) (e : FPath × String) : Prop :=
  fs.pathExists (mirrorDir outDir e.1) = true ∨ mirrorDir outDir e.1 = []

/-- Freshness of an output tree for a transcribe batch: the planned
`.txt` files are pairwise distinct, none of them pre-exists, and none of
them collides with a directory the run creates. -/
def tFresh (outDir : FPath) (fs : FS) (tree : InputTree) : Prop :=
  ((audioEntries tree).map (txtPath outDir)).Nodup ∧
  (∀ e ∈ audioEntries tree, fs.pathExists (txtPath outDir e) = false) ∧
  (∀ e ∈ audioEntries tree, txtPath outDir e ∉ ancestors outDir) ∧
  (∀ e ∈ audioEntries tree, ∀ a ∈ audioEntries tree,
    txtPath outDir e ∉ ancestors (mirrorDir outDir a.1))

/-- Example oracle: every transcription fails soft (empty sentinel). -/
def oEmpty : TOracle := ⟨fun _ => "", fun _ => true, fun _ => true⟩

/-- Example oracle: every transcription returns "hello", writes succeed. -/
def oHello : TOracle := ⟨fun _ => "hello", fun _ => true, fun _ => true⟩

/-- Example oracle: transcription fails soft exactly on `in/b.mp3`. -/
def oSkipB : TOracle :=
  ⟨fun p => if p == ["in", "b.mp3"] then "" else "hello",
   fun _ => true, fun _ => true⟩

/-- Example oracle: the sidecar write for `out/a.json` raises; the
transcription and the `.txt` write succeed. -/
def oJsonFail : TOracle :=
  ⟨fun _ => "hello", fun _ => true, fun p => !(p == ["out", "a.json"])⟩

/-- Example demux oracle: every ffmpeg invocation succeeds. -/
def demAllOk : FPath → DemuxCmd → Bool := fun _ _ => true

/-- Example demux oracle: ffmpeg fails exactly on `in/b.mp4`. -/
def demFailB : FPath → DemuxCmd → Bool := fun p _ => !(p == ["in", "b.mp4"])

/-- Example input tree: one audio file at the root. -/
def treeA : InputTree := ⟨[([], ["a.mp3"])]⟩

/-- Example input tree: a root and an empty subdirectory `d`. -/
def treeEmptyD : InputTree := ⟨[([], []), (["d"], [])]⟩

/-- Example input tree: three audio files at the root. -/
def treeABC : InputTree := ⟨[([], ["a.mp3", "b.mp3", "c.mp3"])]⟩

/-- Example input tree: three video files at the root. -/
def treeVidABC : InputTree := ⟨[([], ["a.mp4", "b.mp4", "c.mp4"])]⟩

/-- Example input tree: one video file in a nested subdirectory. -/
def treeNested : InputTree := ⟨[([], []), (["s"], []), (["s", "t"], ["a.mp4"])]⟩

/-- Example filesystem holding the three video input files of
`treeVidABC` under the input root `in`. -/
def fsVidABC : FS :=
  ⟨[(["in", "a.mp4"], .media), (["in", "b.mp4"], .media),
    (["in", "c.mp4"], .media)], []⟩

/-- Example input tree: one audio file in a subdirectory `s`. -/
def treeNestedAudio : InputTree := ⟨[([], []), (["s"], ["x.mp3"])]⟩

/-- Example whisper oracle whose model load raises. -/
def woLoadFail : WhisperOracle := ⟨.error "load error", fun _ => .ok "hi"⟩

instance (outDir : FPath) (fs : FS) (tree : InputTree) :
    Decidable (tFresh outDir fs tree) :=
  inferInstanceAs (Decidable
    (((audioEntries tree).map (txtPath outDir)).Nodup ∧
     (∀ e ∈ audioEntries tree, fs.pathExists (txtPath outDir e) = false) ∧
     (∀ e ∈ audioEntries tree, txtPath outDir e ∉ ancestors outDir) ∧
     (∀ e ∈ audioEntries tree, ∀ a ∈ audioEntries tree,
       txtPath outDir e ∉ ancestors (mirrorDir outDir a.1))))

/-! ### Basic filesystem lemmas -/

theorem fileExists_write (fs : FS) (q p : FPath) (c : Content) :
    (fs.write q c).fileExists p = (q == p || fs.fileExists p) := by
  simp [FS.write, FS.fileExists]

theorem pathExists_write (fs : FS) (q p : FPath) (c : Content) :
    (fs.write q c).pathExists p = (q == p || fs.pathExists p) := by
  simp [FS.pathExists, FS.write, FS.fileExists, FS.dirExists, List.any_cons,
    Bool.or_assoc]

theorem pathExists_write_self (fs : FS) (q : FPath) (c : Content) :
    (fs.write q c).pathExists q = true := by
  simp [pathExists_write]

theorem pathExists_write_mono (fs : FS) (q p : FPath) (c : Content)
    (h : fs.pathExists p = true) : (fs.write q c).pathExists p = true := by
  simp [pathExists_write, h]

theorem pathExists_makedirs_iff (fs : FS) (d p : FPath) :
    (fs.makedirs d).pathExists p = true ↔
      p ∈ ancestors d ∨ fs.pathExists p = true := by
  simp [FS.pathExists, FS.makedirs, FS.fileExists, FS.dirExists,
    List.any_append, List.any_eq_true, beq_iff_eq]
  tauto

theorem pathExists_makedirs_mono (fs : FS) (d p : FPath)
    (h : fs.pathExists p = true) : (fs.makedirs d).pathExists p = true :=
  (pathExists_makedirs_iff fs d p).mpr (Or.inr h)

theorem files_makedirs (fs : FS) (d : FPath) : (fs.makedirs d).files = fs.files := rfl

theorem files_ensure (fs : FS) (d : FPath) : (ensure fs d).files = fs.files := by
  unfold ensure
  split <;> rfl

theorem fileExists_ensure (fs : FS) (d p : FPath) :
    (ensure fs d).fileExists p = fs.fileExists p := by
  simp [FS.fileExists, files_ensure]

theorem pathExists_ensure_mono (fs : FS) (d p : FPath)
    (h : fs.pathExists p = true) : (ensure fs d).pathExists p = true := by
  unfold ensure
  split
  · exact h
  · exact pathExists_makedirs_mono fs d p h

theorem pathExists_ensure_new (fs : FS) (d p : FPath)
    (h : (ensure fs d).pathExists p = true) :
    p ∈ ancestors d ∨ fs.pathExists p = true := by
  unfold ensure at h
  split at h
  · exact Or.inr h
  · exact (pathExists_makedirs_iff fs d p).mp h

theorem mem_ancestors_self (d : FPath) (h : d ≠ []) : d ∈ ancestors d := by
  have hl : 0 < d.length := List.length_pos.mpr h
  refine List.mem_map.mpr ⟨d.length - 1, List.mem_range.mpr (by omega), ?_⟩
  have : d.length - 1 + 1 = d.length := by omega
  rw [this, List.take_length]

theorem pathExists_ensure_self (fs : FS) (d : FPath) (h : d ≠ []) :
    (ensure fs d).pathExists d = true := by
  unfold ensure
  split
  · assumption
  · exact (pathExists_makedirs_iff fs d d).mpr (Or.inl (mem_ancestors_self d h))

theorem ensure_nil (fs : FS) : ensure fs [] = fs := by
  unfold ensure
  split <;> rfl

theorem ensure_of_pathExists (fs : FS) (d : FPath)
    (h : fs.pathExists d = true) : ensure fs d = fs := by
  unfold ensure
  rw [if_pos h]

theorem ensure_of_dirReady (outDir : FPath) (fs : FS) (e : FPath × String)
    (h : dirReady outDir fs e) : ensure fs (mirrorDir outDir e.1) = fs := by
  rcases h with h | h
  · exact ensure_of_pathExists _ _ h
  · rw [h, ensure_nil]

theorem read_write_self (fs : FS) (p : FPath) (c : Content) :
    (fs.write p c).read p = some c := by
  simp [FS.write, FS.read, List.find?_cons]

theorem read_write_ne (fs : FS) (q p : FPath) (c : Content) (h : q ≠ p) :
    (fs.write q c).read p = fs.read p := by
  simp [FS.write, FS.read, List.find?_cons, beq_eq_false_iff_ne.mpr h]

theorem mirrorDir_ne_nil (outDir rel : FPath) (h : outDir ≠ []) :
    mirrorDir outDir rel ≠ [] := by
  unfold mirrorDir
  split
  · exact h
  · simp [h]

/-! ### Path distinctness lemmas -/

theorem concat_ne_concat_of_last_ne {x y : String} (l1 l2 : FPath)
    (h : x ≠ y) : l1 ++ [x] ≠ l2 ++ [y] := by
  intro he
  have h1 := congrArg List.getLast? he
  rw [List.getLast?_concat, List.getLast?_concat] at h1
  exact h (Option.some_injective _ h1)

theorem append_txt_ne_append_json (s t : String) : s ++ ".txt" ≠ t ++ ".json" := by
  intro h
  have h1 := congrArg String.data h
  rw [String.data_append, String.data_append] at h1
  have h2 := congrArg List.getLast? h1
  simp [List.getLast?_append] at h2

theorem txtPath_ne_jsonPath (outDir : FPath) (e a : FPath × String) :
    txtPath outDir e ≠ jsonPath outDir a :=
  concat_ne_concat_of_last_ne _ _ (append_txt_ne_append_json _ _)

theorem inputPath_inj (inRoot : FPath) (e a : FPath × String)
    (h : inputPath inRoot e = inputPath inRoot a) : e = a := by
  unfold inputPath at h
  rw [List.append_assoc, List.append_assoc] at h
  have h1 : e.1 ++ [e.2] = a.1 ++ [a.2] := List.append_cancel_left h
  have hl : e.1.length = a.1.length := by
    have := congrArg List.length h1
    simp at this
    omega
  obtain ⟨h2, h3⟩ := List.append_inj h1 hl
  simp at h3
  exact Prod.ext h2 h3

/-! ### Case equations for the transcribe batch step -/

theorem tStep_skip (o : TOracle) (inRoot outDir : FPath) (st : TState)
    (e : FPath × String)
    (h : (ensure st.fs (mirrorDir outDir e.1)).pathExists (txtPath outDir e) = true) :
    tStep o inRoot outDir st e =
      ⟨ensure st.fs (mirrorDir outDir e.1), st.count + 1, st.invoked⟩ := by
  simp [tStep, h]

theorem tStep_empty (o : TOracle) (inRoot outDir : FPath) (st : TState)
    (e : FPath × String)
    (h : (ensure st.fs (mirrorDir outDir e.1)).pathExists (txtPath outDir e) = false)
    (h2 : o.transcr (inputPath inRoot e) = "") :
    tStep o inRoot outDir st e =
      ⟨ensure st.fs (mirrorDir outDir e.1), st.count,
        st.invoked ++ [inputPath inRoot e]⟩ := by
  simp [tStep, h, h2]

theorem tStep_nowrite (o : TOracle) (inRoot outDir : FPath) (st : TState)
    (e : FPath × String)
    (h : (ensure st.fs (mirrorDir outDir e.1)).pathExists (txtPath outDir e) = false)
    (h2 : o.transcr (inputPath inRoot e) ≠ "")
    (h3 : o.txtOk (txtPath outDir e) = false) :
    tStep o inRoot outDir st e =
      ⟨ensure st.fs (mirrorDir outDir e.1), st.count,
        st.invoked ++ [inputPath inRoot e]⟩ := by
  simp [tStep, h, h2, h3]

theorem tStep_jsonfail (o : TOracle) (inRoot outDir : FPath) (st : TState)
    (e : FPath × String)
    (h : (ensure st.fs (mirrorDir outDir e.1)).pathExists (txtPath outDir e) = false)
    (h2 : o.transcr (inputPath inRoot e) ≠ "")
    (h3 : o.txtOk (txtPath outDir e) = true)
    (h4 : o.jsonOk (jsonPath outDir e) = false) :
    tStep o inRoot outDir st e =
      ⟨(ensure st.fs (mirrorDir outDir e.1)).write (txtPath outDir e)
          (.text (o.transcr (inputPath inRoot e))),
        st.count, st.invoked ++ [inputPath inRoot e]⟩ := by
  simp [tStep, h, h2, h3, h4]

theorem tStep_good (o : TOracle) (inRoot outDir : FPath) (st : TState)
    (e : FPath × String)
    (h : (ensure st.fs (mirrorDir outDir e.1)).pathExists (txtPath outDir e) = false)
    (h2 : o.transcr (inputPath inRoot e) ≠ "")
    (h3 : o.txtOk (txtPath outDir e) = true)
    (h4 : o.jsonOk (jsonPath outDir e) = true) :
    tStep o inRoot outDir st e =
      ⟨((ensure st.fs (mirrorDir outDir e.1)).write (txtPath outDir e)
          (.text (o.transcr (inputPath inRoot e)))).write (jsonPath outDir e)
          (.json ⟨joinPath (inputPath inRoot e), o.transcr (inputPath inRoot e), "en"⟩),
        st.count + 1, st.invoked ++ [inputPath inRoot e]⟩ := by
  simp [tStep, h, h2, h3, h4]

theorem tStep_fs_mono (o : TOracle) (inRoot outDir : FPath) (st : TState)
    (e : FPath × String) (p : FPath) (hp : st.fs.pathExists p = true) :
    (tStep o inRoot outDir st e).fs.pathExists p = true := by
  have hm := pathExists_ensure_mono st.fs (mirrorDir outDir e.1) p hp
  by_cases h1 : (ensure st.fs (mirrorDir outDir e.1)).pathExists (txtPath outDir e) = true
  · rw [tStep_skip o inRoot outDir st e h1]
    exact hm
  · rw [Bool.not_eq_true] at h1
    by_cases h2 : o.transcr (inputPath inRoot e) = ""
    · rw [tStep_empty o inRoot outDir st e h1 h2]
      exact hm
    · by_cases h3 : o.txtOk (txtPath outDir e) = true
      · by_cases h4 : o.jsonOk (jsonPath outDir e) = true
        · rw [tStep_good o inRoot outDir st e h1 h2 h3 h4]
          exact pathExists_write_mono _ _ _ _ (pathExists_write_mono _ _ _ _ hm)
        · rw [Bool.not_eq_true] at h4
          rw [tStep_jsonfail o inRoot outDir st e h1 h2 h3 h4]
          exact pathExists_write_mono _ _ _ _ hm
      · rw [Bool.not_eq_true] at h3
        rw [tStep_nowrite o inRoot outDir st e h1 h2 h3]
        exact hm

theorem tStep_fs_new (o : TOracle) (inRoot outDir : FPath) (st : TState)
    (e : FPath × String) (p : FPath)
    (hp : (tStep o inRoot outDir st e).fs.pathExists p = true) :
    st.fs.pathExists p = true ∨ p ∈ ancestors (mirrorDir outDir e.1) ∨
      p = txtPath outDir e ∨ p = jsonPath outDir e := by
  have hens : ∀ hq : (ensure st.fs (mirrorDir outDir e.1)).pathExists p = true,
      st.fs.pathExists p = true ∨ p ∈ ancestors (mirrorDir outDir e.1) ∨
        p = txtPath outDir e ∨ p = jsonPath outDir e := by
    intro hq
    rcases pathExists_ensure_new _ _ _ hq with h | h
    · exact Or.inr (Or.inl h)
    · exact Or.inl h
  by_cases h1 : (ensure st.fs (mirrorDir outDir e.1)).pathExists (txtPath outDir e) = true
  · rw [tStep_skip o inRoot outDir st e h1] at hp
    exact hens hp
  · rw [Bool.not_eq_true] at h1
    by_cases h2 : o.transcr (inputPath inRoot e) = ""
    · rw [tStep_empty o inRoot outDir st e h1 h2] at hp
      exact hens hp
    · by_cases h3 : o.txtOk (txtPath outDir e) = true
      · by_cases h4 : o.jsonOk (jsonPath outDir e) = true
        · rw [tStep_good o inRoot outDir st e h1 h2 h3 h4] at hp
          rw [pathExists_write, pathExists_write] at hp
          rcases Bool.or_eq_true_iff.mp hp with h | hp
          · exact Or.inr (Or.inr (Or.inr (eq_comm.mp (eq_of_beq h))))
          rcases Bool.or_eq_true_iff.mp hp with h | hp
          · exact Or.inr (Or.inr (Or.inl (eq_comm.mp (eq_of_beq h))))
          · exact hens hp
        · rw [Bool.not_eq_true] at h4
          rw [tStep_jsonfail o inRoot outDir st e h1 h2 h3 h4] at hp
          rw [pathExists_write] at hp
          rcases Bool.or_eq_true_iff.mp hp with h | hp
          · exact Or.inr (Or.inr (Or.inl (eq_comm.mp (eq_of_beq h))))
          · exact hens hp
      · rw [Bool.not_eq_true] at h3
        rw [tStep_nowrite o inRoot outDir st e h1 h2 h3] at hp
        exact hens hp

theorem tStep_done (o : TOracle) (inRoot outDir : FPath) (st : TState)
    (e : FPath × String) :
    entryDone o inRoot outDir (tStep o inRoot outDir st e).fs e ∧
      dirReady outDir (tStep o inRoot outDir st e).fs e := by
  have hdir : dirReady outDir (tStep o inRoot outDir st e).fs e := by
    by_cases hnil : mirrorDir outDir e.1 = []
    · exact Or.inr hnil
    · refine Or.inl ?_
      have hself := pathExists_ensure_self st.fs (mirrorDir outDir e.1) hnil
      by_cases h1 : (ensure st.fs (mirrorDir outDir e.1)).pathExists (txtPath outDir e) = true
      · rw [tStep_skip o inRoot outDir st e h1]
        exact hself
      · rw [Bool.not_eq_true] at h1
        by_cases h2 : o.transcr (inputPath inRoot e) = ""
        · rw [tStep_empty o inRoot outDir st e h1 h2]
          exact hself
        · by_cases h3 : o.txtOk (txtPath outDir e) = true
          · by_cases h4 : o.jsonOk (jsonPath outDir e) = true
            · rw [tStep_good o inRoot outDir st e h1 h2 h3 h4]
              exact pathExists_write_mono _ _ _ _ (pathExists_write_mono _ _ _ _ hself)
            · rw [Bool.not_eq_true] at h4
              rw [tStep_jsonfail o inRoot outDir st e h1 h2 h3 h4]
              exact pathExists_write_mono _ _ _ _ hself
          · rw [Bool.not_eq_true] at h3
            rw [tStep_nowrite o inRoot outDir st e h1 h2 h3]
            exact hself
  refine ⟨?_, hdir⟩
  by_cases h1 : (ensure st.fs (mirrorDir outDir e.1)).pathExists (txtPath outDir e) = true
  · rw [tStep_skip o inRoot outDir st e h1]
    exact Or.inl h1
  · rw [Bool.not_eq_true] at h1
    by_cases h2 : o.transcr (inputPath inRoot e) = ""
    · exact Or.inr (Or.inl h2)
    · by_cases h3 : o.txtOk (txtPath outDir e) = true
      · by_cases h4 : o.jsonOk (jsonPath outDir e) = true
        · rw [tStep_good o inRoot outDir st e h1 h2 h3 h4]
          exact Or.inl (pathExists_write_mono _ _ _ _ (pathExists_write_self _ _ _))
        · rw [Bool.not_eq_true] at h4
          rw [tStep_jsonfail o inRoot outDir st e h1 h2 h3 h4]
          exact Or.inl (pathExists_write_self _ _ _)
      · rw [Bool.not_eq_true] at h3
        exact Or.inr (Or.inr h3)

/-! ### Fold lemmas for the transcribe batch -/

theorem foldl_tStep_mono (o : TOracle) (inRoot outDir : FPath) :
    ∀ (E : List (FPath × String)) (st : TState) (p : FPath),
      st.fs.pathExists p = true →
      ((E.foldl (tStep o inRoot outDir) st).fs.pathExists p = true) := by
  intro E
  induction E with
  | nil => exact fun st p h => h
  | cons a as ih =>
    intro st p h
    exact ih _ p (tStep_fs_mono o inRoot outDir st a p h)

theorem entryDone_foldl (o : TOracle) (inRoot outDir : FPath)
    (E : List (FPath × String)) (st : TState) (e : FPath × String)
    (h : entryDone o inRoot outDir st.fs e) :
    entryDone o inRoot outDir ((E.foldl (tStep o inRoot outDir) st)).fs e := by
  rcases h with h | h | h
  · exact Or.inl (foldl_tStep_mono o inRoot outDir E st _ h)
  · exact Or.inr (Or.inl h)
  · exact Or.inr (Or.inr h)

theorem dirReady_foldl (o : TOracle) (inRoot outDir : FPath)
    (E : List (FPath × String)) (st : TState) (e : FPath × String)
    (h : dirReady outDir st.fs e) :
    dirReady outDir ((E.foldl (tStep o inRoot outDir) st)).fs e := by
  rcases h with h | h
  · exact Or.inl (foldl_tStep_mono o inRoot outDir E st _ h)
  · exact Or.inr h

theorem foldl_tStep_done (o : TOracle) (inRoot outDir : FPath) :
    ∀ (E : List (FPath × String)) (st : TState), ∀ e ∈ E,
      entryDone o inRoot outDir ((E.foldl (tStep o inRoot outDir) st)).fs e ∧
        dirReady outDir ((E.foldl (tStep o inRoot outDir) st)).fs e := by
  intro E
  induction E with
  | nil =>
    intro st e he
    exact absurd he (List.not_mem_nil e)
  | cons a as ih =>
    intro st e he
    rcases List.mem_cons.mp he with rfl | he
    · rw [List.foldl_cons]
      have hstep := tStep_done o inRoot outDir st e
      exact ⟨entryDone_foldl o inRoot outDir as _ e hstep.1,
             dirReady_foldl o inRoot outDir as _ e hstep.2⟩
    · rw [List.foldl_cons]
      exact ih _ e he

theorem tStep_id (o : TOracle) (inRoot outDir : FPath) (st : TState)
    (e : FPath × String)
    (hd : entryDone o inRoot outDir st.fs e)
    (hm : dirReady outDir st.fs e) :
    tStep o inRoot outDir st e =
      ⟨st.fs,
       st.count + (if st.fs.pathExists (txtPath outDir e) = true then 1 else 0),
       st.invoked ++ (if st.fs.pathExists (txtPath outDir e) = true then []
                      else [inputPath inRoot e])⟩ := by
  have hens := ensure_of_dirReady outDir st.fs e hm
  by_cases hx : st.fs.pathExists (txtPath outDir e) = true
  · rw [tStep_skip o inRoot outDir st e (by rw [hens]; exact hx), hens]
    simp [hx]
  · rw [Bool.not_eq_true] at hx
    have hx1 : (ensure st.fs (mirrorDir outDir e.1)).pathExists (txtPath outDir e) = false := by
      rw [hens]; exact hx
    rcases hd with h | h | h
    · rw [hx] at h
      exact absurd h (by simp)
    · rw [tStep_empty o inRoot outDir st e hx1 h, hens]
      simp [hx]
    · by_cases h2 : o.transcr (inputPath inRoot e) = ""
      · rw [tStep_empty o inRoot outDir st e hx1 h2, hens]
        simp [hx]
      · rw [tStep_nowrite o inRoot outDir st e hx1 h2 h, hens]
        simp [hx]

theorem foldl_tStep_id (o : TOracle) (inRoot outDir : FPath) (F : FS) :
    ∀ (E : List (FPath × String)) (st : TState), st.fs = F →
      (∀ e ∈ E, entryDone o inRoot outDir F e ∧ dirReady outDir F e) →
      ((E.foldl (tStep o inRoot outDir) st).fs = F ∧
       ∀ p ∈ (E.foldl (tStep o inRoot outDir) st).invoked,
         p ∈ st.invoked ∨ ∃ e ∈ E, p = inputPath inRoot e ∧
           F.pathExists (txtPath outDir e) = false) := by
  intro E
  induction E with
  | nil =>
    intro st hst _
    exact ⟨hst, fun p hp => Or.inl hp⟩
  | cons a as ih =>
    intro st hst h
    have ha := h a (List.mem_cons_self a as)
    have hstep := tStep_id o inRoot outDir st a (by rw [hst]; exact ha.1)
      (by rw [hst]; exact ha.2)
    rw [List.foldl_cons, hstep]
    have hrec := ih
      ⟨st.fs, st.count + (if st.fs.pathExists (txtPath outDir a) = true then 1 else 0),
        st.invoked ++ (if st.fs.pathExists (txtPath outDir a) = true then []
                       else [inputPath inRoot a])⟩
      hst (fun e he => h e (List.mem_cons_of_mem a he))
    refine ⟨hrec.1, fun p hp => ?_⟩
    rcases hrec.2 p hp with hmem | ⟨e, he, hpe, hne⟩
    · rcases List.mem_append.mp hmem with hmem | hmem
      · exact Or.inl hmem
      · by_cases hc : st.fs.pathExists (txtPath outDir a) = true
        · rw [if_pos hc] at hmem
          exact absurd hmem (List.not_mem_nil p)
        · rw [if_neg hc] at hmem
          rw [Bool.not_eq_true] at hc
          rcases List.mem_singleton.mp hmem with rfl
          exact Or.inr ⟨a, List.mem_cons_self a as, rfl, hst ▸ hc⟩
    · exact Or.inr ⟨e, List.mem_cons_of_mem a he, hpe, hne⟩

theorem ensure_outDir_after_run (o : TOracle) (inRoot outDir : FPath)
    (tree : InputTree) (fs : FS) :
    ensure (process_audio_directory o inRoot outDir tree fs).fs outDir =
      (process_audio_directory o inRoot outDir tree fs).fs := by
  by_cases hnil : outDir = []
  · rw [hnil, ensure_nil]
  · refine ensure_of_pathExists _ _ ?_
    have h0 : (ensure fs outDir).pathExists outDir = true :=
      pathExists_ensure_self fs outDir hnil
    exact foldl_tStep_mono o inRoot outDir (audioEntries tree)
      ⟨ensure fs outDir, 0, []⟩ outDir h0

/-- C2: running the transcribe job a second time over the same input tree
leaves the output filesystem exactly as after the first run, and the
second run does not invoke the inference collaborator for any matched
file whose `.txt` output already exists after the first run (the `.txt`
is the idempotency marker: such files are counted as processed and
skipped). -/
theorem C2_transcribe_idempotent (o : TOracle) (inRoot outDir : FPath)
    (tree : InputTree) (fs : FS) :
    (process_audio_directory o inRoot outDir tree
        (process_audio_directory o inRoot outDir tree fs).fs).fs =
      (process_audio_directory o inRoot outDir tree fs).fs ∧
    ∀ e ∈ audioEntries tree,
      (process_audio_directory o inRoot outDir tree fs).fs.pathExists
          (txtPath outDir e) = true →
      inputPath inRoot e ∉
        (process_audio_directory o inRoot outDir tree
          (process_audio_directory o inRoot outDir tree fs).fs).invoked := by
  have hdone := foldl_tStep_done o inRoot outDir (audioEntries tree)
    ⟨ensure fs outDir, 0, []⟩
  have hens := ensure_outDir_after_run o inRoot outDir tree fs
  have hid := foldl_tStep_id o inRoot outDir
    (process_audio_directory o inRoot outDir tree fs).fs (audioEntries tree)
    ⟨ensure (process_audio_directory o inRoot outDir tree fs).fs outDir, 0, []⟩
    (by rw [hens]) (fun e he => hdone e he)
  refine ⟨hid.1, fun e he hx hmem => ?_⟩
  rcases hid.2 _ hmem with h | ⟨a, ha, hpe, hne⟩
  · exact absurd h (List.not_mem_nil _)
  · rcases inputPath_inj inRoot e a hpe with rfl
    rw [hx] at hne
    exact absurd hne (by simp)

/-- Witness for C2 at a concrete run: one audio file, transcribed to
"hello" by the first run, skipped (not re-invoked) by the second. -/
theorem C2_transcribe_idempotent_witness :
    (([], "a.mp3") ∈ audioEntries treeA ∧
      (process_audio_directory oHello ["in"] ["out"] treeA ⟨[], []⟩).fs.pathExists
        (txtPath ["out"] ([], "a.mp3")) = true) ∧
    (process_audio_directory oHello ["in"] ["out"] treeA
        (process_audio_directory oHello ["in"] ["out"] treeA ⟨[], []⟩).fs).fs =
      (process_audio_directory oHello ["in"] ["out"] treeA ⟨[], []⟩).fs ∧
    inputPath ["in"] ([], "a.mp3") ∉
      (process_audio_directory oHello ["in"] ["out"] treeA
        (process_audio_directory oHello ["in"] ["out"] treeA ⟨[], []⟩).fs).invoked :=
  ⟨⟨by decide, by decide⟩,
   (C2_transcribe_idempotent oHello ["in"] ["out"] treeA ⟨[], []⟩).1,
   (C2_transcribe_idempotent oHello ["in"] ["out"] treeA ⟨[], []⟩).2
     ([], "a.mp3") (by decide) (by decide)⟩

/-! ### The per-file transcriber (C7) -/

/-- C7: the transcribe operation never raises to its caller: a missing
audio file is logged and yields the empty-string return (not an
exception), and any error raised during model load or inference is
caught by the blanket handler and converted to the empty-string return.
In the embedding the total return type `String` is the never-raises
contract; the two conjuncts pin down the two converted failure modes. -/
theorem C7_transcribe_fails_soft (fileOk : Bool) (o : WhisperOracle)
    (language : String) :
    (fileOk = false → transcribe_audio_with_whisper fileOk o language = "") ∧
    (∀ e, transcribe_body fileOk o language = .error e →
      transcribe_audio_with_whisper fileOk o language = "") := by
  constructor
  · intro h
    simp [transcribe_audio_with_whisper, transcribe_body, h]
  · intro e h
    simp [transcribe_audio_with_whisper, h]

/-- Witness for C7: a missing file and a failing model load both produce
the empty-string return. -/
theorem C7_transcribe_fails_soft_witness :
    transcribe_audio_with_whisper false woLoadFail "en" = "" ∧
    (transcribe_body true woLoadFail "en" = .error "load error" ∧
      transcribe_audio_with_whisper true woLoadFail "en" = "") :=
  ⟨(C7_transcribe_fails_soft false woLoadFail "en").1 rfl,
   rfl,
   (C7_transcribe_fails_soft true woLoadFail "en").2 "load error" rfl⟩

/-! ### Split error behaviour (C6) and output naming (C8) -/

/-- C6: `split_video_audio` raises `FileNotFoundError` when the input
file does not exist, before any ffmpeg invocation; and if the first
(video-extraction) invocation fails, the second (audio-extraction)
invocation is never attempted and the error propagates to the caller. -/
theorem C6_split_fails_hard (fs : FS) (dem : DemuxCmd → Bool)
    (input_file : FPath) (output_dir : Option FPath) :
    (fs.pathExists input_file = false →
      (split_video_audio fs dem input_file output_dir).res =
          .error (.fileNotFound input_file) ∧
        (split_video_audio fs dem input_file output_dir).invoked = []) ∧
    (fs.pathExists input_file = true → dem .video = false →
      (split_video_audio fs dem input_file output_dir).res =
          .error (.calledProcessError .video) ∧
        (split_video_audio fs dem input_file output_dir).invoked = [.video]) := by
  constructor
  · intro h
    rw [split_video_audio, if_pos h]
    exact ⟨rfl, rfl⟩
  · intro h hv
    rw [split_video_audio, if_neg (by simp [h])]
    simp only [hv]
    exact ⟨rfl, rfl⟩

/-- Witness for C6: a missing input file, and a file whose video
extraction fails. -/
theorem C6_split_fails_hard_witness :
    (fsVidABC.pathExists ["in", "missing.mp4"] = false ∧
      (split_video_audio fsVidABC (fun _ => true) ["in", "missing.mp4"]
          (some ["out"])).res = .error (.fileNotFound ["in", "missing.mp4"]) ∧
      (split_video_audio fsVidABC (fun _ => true) ["in", "missing.mp4"]
          (some ["out"])).invoked = []) ∧
    (fsVidABC.pathExists ["in", "a.mp4"] = true ∧
      (split_video_audio fsVidABC (fun _ => false) ["in", "a.mp4"]
          (some ["out"])).res = .error (.calledProcessError .video) ∧
      (split_video_audio fsVidABC (fun _ => false) ["in", "a.mp4"]
          (some ["out"])).invoked = [.video]) :=
  ⟨⟨by decide,
    (C6_split_fails_hard fsVidABC (fun _ => true) ["in", "missing.mp4"]
        (some ["out"])).1 (by decide)⟩,
   ⟨by decide,
    (C6_split_fails_hard fsVidABC (fun _ => false) ["in", "a.mp4"]
        (some ["out"])).2 (by decide) rfl⟩⟩

/-- C8: for an existing input file the split operation derives the base
name by dropping the extension of the file name and, on success, returns
exactly the pair `(outputDir/base_video.mp4, outputDir/base_audio.wav)`;
when the `output_dir` argument is absent it defaults to the input file's
own directory. -/
theorem C8_split_naming (fs : FS) (dem : DemuxCmd → Bool)
    (input_file : FPath) (d : FPath)
    (h : fs.pathExists input_file = true)
    (hv : dem .video = true) (ha : dem .audio = true) :
    (split_video_audio fs dem input_file none).res =
      .ok (input_file.dropLast ++
             [(splitext ((input_file.getLast?).getD "")).1 ++ "_video.mp4"],
           input_file.dropLast ++
             [(splitext ((input_file.getLast?).getD "")).1 ++ "_audio.wav"]) ∧
    (d ≠ [] →
      (split_video_audio fs dem input_file (some d)).res =
        .ok (d ++ [(splitext ((input_file.getLast?).getD "")).1 ++ "_video.mp4"],
             d ++ [(splitext ((input_file.getLast?).getD "")).1 ++ "_audio.wav"])) := by
  constructor
  · rw [split_video_audio, if_neg (by simp [h])]
    simp only [hv, ha]
    rfl
  · intro hd
    rw [split_video_audio, if_neg (by simp [h])]
    simp only [hv, ha, hd]
    simp [hd]

/-- Witness for C8: splitting `in/a.mp4` names the outputs from the base
`a`, next to the input by default and in `out` when given. -/
theorem C8_split_naming_witness :
    fsVidABC.pathExists ["in", "a.mp4"] = true ∧
    (split_video_audio fsVidABC (fun _ => true) ["in", "a.mp4"] none).res =
      .ok (["in", "a_video.mp4"], ["in", "a_audio.wav"]) ∧
    (split_video_audio fsVidABC (fun _ => true) ["in", "a.mp4"]
        (some ["out"])).res =
      .ok (["out", "a_video.mp4"], ["out", "a_audio.wav"]) :=
  ⟨by decide,
   (C8_split_naming fsVidABC (fun _ => true) ["in", "a.mp4"] ["out"]
      (by decide) rfl rfl).1,
   (C8_split_naming fsVidABC (fun _ => true) ["in", "a.mp4"] ["out"]
      (by decide) rfl rfl).2 (by decide)⟩

/-! ### Sidecar content (C5) -/

/-- C5: for every successful transcription producing text `T` from audio
file `F` (non-empty `T`, both writes succeed, no pre-existing `.txt`),
the JSON sidecar written by the batch reads back as exactly the object
with `audio_file = F`, `transcription = T` and `language = "en"` — the
language field is the hardcoded literal `"en"`, independent of the
oracle and hence of whatever language the inference actually used. -/
theorem C5_sidecar_roundtrip (o : TOracle) (inRoot outDir : FPath)
    (st : TState) (e : FPath × String)
    (h : (ensure st.fs (mirrorDir outDir e.1)).pathExists (txtPath outDir e) = false)
    (h2 : o.transcr (inputPath inRoot e) ≠ "")
    (h3 : o.txtOk (txtPath outDir e) = true)
    (h4 : o.jsonOk (jsonPath outDir e) = true) :
    (tStep o inRoot outDir st e).fs.read (jsonPath outDir e) =
      some (.json ⟨joinPath (inputPath inRoot e),
        o.transcr (inputPath inRoot e), "en"⟩) := by
  rw [tStep_good o inRoot outDir st e h h2 h3 h4]
  exact read_write_self _ _ _

/-- Witness for C5 at a concrete entry: the sidecar of `in/a.mp3` holds
exactly that path string, the transcription "hello" and language "en". -/
theorem C5_sidecar_roundtrip_witness :
    (ensure (⟨[], []⟩ : FS) (mirrorDir ["out"] [])).pathExists
        (txtPath ["out"] ([], "a.mp3")) = false ∧
    (tStep oHello ["in"] ["out"] ⟨⟨[], []⟩, 0, []⟩ ([], "a.mp3")).fs.read
        (jsonPath ["out"] ([], "a.mp3")) =
      some (.json ⟨"in/a.mp3", "hello", "en"⟩) :=
  ⟨by decide,
   C5_sidecar_roundtrip oHello ["in"] ["out"] ⟨⟨[], []⟩, 0, []⟩ ([], "a.mp3")
     (by decide) (by decide) (by decide) (by decide)⟩

/-! ### Empty-sentinel handling (C1) -/

/-- C1 counterexample: one matched audio file whose transcription
returns the empty sentinel. Contrary to the claim that the batch then
still persists the outputs and increments the processed count, the run
writes neither the `.txt` nor the `.json` sidecar and counts nothing:
the sentinel does block the JSON sidecar write. -/
theorem C1_counterexample :
    ([], "a.mp3") ∈ audioEntries treeA ∧
    oEmpty.transcr (inputPath ["in"] ([], "a.mp3")) = "" ∧
    (process_audio_directory oEmpty ["in"] ["out"] treeA ⟨[], []⟩).count = 0 ∧
    (process_audio_directory oEmpty ["in"] ["out"] treeA ⟨[], []⟩).fs.fileExists
      ["out", "a.txt"] = false ∧
    (process_audio_directory oEmpty ["in"] ["out"] treeA ⟨[], []⟩).fs.fileExists
      ["out", "a.json"] = false := by decide

/-- C1 amended: for a matched file that is not skipped, the batch
persists the `.txt` and then the `.json` sidecar and increments the
count exactly when the returned transcription is non-empty (and the
writes succeed); when the empty sentinel is returned, no output file is
written and the count is unchanged, and the loop simply proceeds (the
step returns normally). -/
theorem C1_amended_persist_iff_nonempty (o : TOracle) (inRoot outDir : FPath)
    (st : TState) (e : FPath × String)
    (h : (ensure st.fs (mirrorDir outDir e.1)).pathExists (txtPath outDir e) = false) :
    (o.transcr (inputPath inRoot e) = "" →
      (tStep o inRoot outDir st e).fs.files = st.fs.files ∧
      (tStep o inRoot outDir st e).count = st.count) ∧
    (o.transcr (inputPath inRoot e) ≠ "" →
      o.txtOk (txtPath outDir e) = true → o.jsonOk (jsonPath outDir e) = true →
      (tStep o inRoot outDir st e).fs.fileExists (txtPath outDir e) = true ∧
      (tStep o inRoot outDir st e).fs.read (jsonPath outDir e) =
        some (.json ⟨joinPath (inputPath inRoot e),
          o.transcr (inputPath inRoot e), "en"⟩) ∧
      (tStep o inRoot outDir st e).count = st.count + 1) := by
  constructor
  · intro h2
    rw [tStep_empty o inRoot outDir st e h h2]
    exact ⟨files_ensure st.fs _, rfl⟩
  · intro h2 h3 h4
    rw [tStep_good o inRoot outDir st e h h2 h3 h4]
    refine ⟨?_, read_write_self _ _ _, rfl⟩
    rw [fileExists_write, fileExists_write]
    simp

/-- Witness for C1's amended statement: the empty sentinel writes
nothing; a non-empty transcription produces both outputs and the count. -/
theorem C1_amended_persist_iff_nonempty_witness :
    ((tStep oEmpty ["in"] ["out"] ⟨⟨[], []⟩, 0, []⟩ ([], "a.mp3")).fs.files =
        (⟨[], []⟩ : FS).files ∧
      (tStep oEmpty ["in"] ["out"] ⟨⟨[], []⟩, 0, []⟩ ([], "a.mp3")).count = 0) ∧
    ((tStep oHello ["in"] ["out"] ⟨⟨[], []⟩, 0, []⟩ ([], "a.mp3")).fs.fileExists
        (txtPath ["out"] ([], "a.mp3")) = true ∧
      (tStep oHello ["in"] ["out"] ⟨⟨[], []⟩, 0, []⟩ ([], "a.mp3")).fs.read
        (jsonPath ["out"] ([], "a.mp3")) =
          some (.json ⟨"in/a.mp3", "hello", "en"⟩) ∧
      (tStep oHello ["in"] ["out"] ⟨⟨[], []⟩, 0, []⟩ ([], "a.mp3")).count = 0 + 1) :=
  ⟨(C1_amended_persist_iff_nonempty oEmpty ["in"] ["out"] ⟨⟨[], []⟩, 0, []⟩
      ([], "a.mp3") (by decide)).1 (by decide),
   (C1_amended_persist_iff_nonempty oHello ["in"] ["out"] ⟨⟨[], []⟩, 0, []⟩
      ([], "a.mp3") (by decide)).2 (by decide) (by decide) (by decide)⟩

/-! ### Non-atomic persistence (C10) -/

/-- C10: per-file persistence is not atomic: the `.txt` is written
before the `.json`, so when the sidecar write raises after the `.txt`
write succeeded, the `.txt` persists, no sidecar appears and the count
is not incremented for that run; and at any later state in which the
`.txt` exists, visiting the entry skips it — counting it as processed,
invoking nothing and writing nothing — because the skip check only
tests the `.txt` file. -/
theorem C10_nonatomic_persistence (o : TOracle) (inRoot outDir : FPath)
    (st : TState) (e : FPath × String)
    (h : (ensure st.fs (mirrorDir outDir e.1)).pathExists (txtPath outDir e) = false)
    (h2 : o.transcr (inputPath inRoot e) ≠ "")
    (h3 : o.txtOk (txtPath outDir e) = true)
    (h4 : o.jsonOk (jsonPath outDir e) = false) :
    ((tStep o inRoot outDir st e).fs.pathExists (txtPath outDir e) = true ∧
     (tStep o inRoot outDir st e).fs.fileExists (jsonPath outDir e) =
       st.fs.fileExists (jsonPath outDir e) ∧
     (tStep o inRoot outDir st e).count = st.count) ∧
    (∀ st2 : TState, st2.fs.pathExists (txtPath outDir e) = true →
      (tStep o inRoot outDir st2 e).count = st2.count + 1 ∧
      (tStep o inRoot outDir st2 e).invoked = st2.invoked ∧
      (tStep o inRoot outDir st2 e).fs.files = st2.fs.files) := by
  constructor
  · rw [tStep_jsonfail o inRoot outDir st e h h2 h3 h4]
    refine ⟨pathExists_write_self _ _ _, ?_, rfl⟩
    rw [fileExists_write, fileExists_ensure]
    have hne : (txtPath outDir e == jsonPath outDir e) = false :=
      beq_eq_false_iff_ne.mpr (txtPath_ne_jsonPath outDir e e)
    rw [hne, Bool.false_or]
  · intro st2 hx
    have hx2 : (ensure st2.fs (mirrorDir outDir e.1)).pathExists
        (txtPath outDir e) = true :=
      pathExists_ensure_mono _ _ _ hx
    rw [tStep_skip o inRoot outDir st2 e hx2]
    exact ⟨rfl, rfl, files_ensure st2.fs _⟩

/-- Witness for C10: a failing sidecar write leaves the `.txt` alone and
an unincremented count, and a later visit of the same entry skips. -/
theorem C10_nonatomic_persistence_witness :
    ((tStep oJsonFail ["in"] ["out"] ⟨⟨[], []⟩, 0, []⟩ ([], "a.mp3")).fs.pathExists
        (txtPath ["out"] ([], "a.mp3")) = true ∧
      (tStep oJsonFail ["in"] ["out"] ⟨⟨[], []⟩, 0, []⟩ ([], "a.mp3")).fs.fileExists
        (jsonPath ["out"] ([], "a.mp3")) =
          (⟨[], []⟩ : FS).fileExists (jsonPath ["out"] ([], "a.mp3")) ∧
      (tStep oJsonFail ["in"] ["out"] ⟨⟨[], []⟩, 0, []⟩ ([], "a.mp3")).count = 0) ∧
    ((tStep oJsonFail ["in"] ["out"]
        ⟨⟨[(["out", "a.txt"], .text "hello")], []⟩, 7, []⟩ ([], "a.mp3")).count = 7 + 1 ∧
      (tStep oJsonFail ["in"] ["out"]
        ⟨⟨[(["out", "a.txt"], .text "hello")], []⟩, 7, []⟩ ([], "a.mp3")).invoked = [] ∧
      (tStep oJsonFail ["in"] ["out"]
          ⟨⟨[(["out", "a.txt"], .text "hello")], []⟩, 7, []⟩ ([], "a.mp3")).fs.files =
        (⟨[(["out", "a.txt"], .text "hello")], []⟩ : FS).files) :=
  ⟨(C10_nonatomic_persistence oJsonFail ["in"] ["out"] ⟨⟨[], []⟩, 0, []⟩
      ([], "a.mp3") (by decide) (by decide) (by decide) (by decide)).1,
   (C10_nonatomic_persistence oJsonFail ["in"] ["out"] ⟨⟨[], []⟩, 0, []⟩
      ([], "a.mp3") (by decide) (by decide) (by decide) (by decide)).2
     ⟨⟨[(["out", "a.txt"], .text "hello")], []⟩, 7, []⟩ (by decide)⟩

/-! ### File selection (C9) -/

theorem mem_videoEntries (tree : InputTree) (rel : FPath) (f : String) :
    (rel, f) ∈ videoEntries tree ↔
      (∃ d ∈ tree.dirs, d.1 = rel ∧ f ∈ d.2) ∧ isVideoFile f = true := by
  simp only [videoEntries, List.mem_flatMap, List.mem_map, List.mem_filter,
    Prod.mk.injEq]
  constructor
  · rintro ⟨d, hd, x, ⟨hx, hgood⟩, h1, rfl⟩
    exact ⟨⟨d, hd, h1, hx⟩, hgood⟩
  · rintro ⟨⟨d, hd, h1, hx⟩, hgood⟩
    exact ⟨d, hd, f, ⟨hx, hgood⟩, h1, rfl⟩

theorem mem_audioEntries (tree : InputTree) (rel : FPath) (f : String) :
    (rel, f) ∈ audioEntries tree ↔
      (∃ d ∈ tree.dirs, d.1 = rel ∧ f ∈ d.2) ∧ isAudioFile f = true := by
  simp only [audioEntries, List.mem_flatMap, List.mem_map, List.mem_filter,
    Prod.mk.injEq]
  constructor
  · rintro ⟨d, hd, x, ⟨hx, hgood⟩, h1, rfl⟩
    exact ⟨⟨d, hd, h1, hx⟩, hgood⟩
  · rintro ⟨⟨d, hd, h1, hx⟩, hgood⟩
    exact ⟨d, hd, f, ⟨hx, hgood⟩, h1, rfl⟩

/-- C9: selection in both batch jobs is by case-insensitive suffix: a
file of the input tree is matched by the split job iff its lowercased
name ends with ".mp4", and by the transcribe job iff its lowercased name
ends with one of "_audio.wav", ".mp3", ".aac", ".flac"; in particular
"VIDEO.MP4" and "video.mp4" are both matched by the split job. -/
theorem C9_suffix_selection :
    (∀ (tree : InputTree) (rel : FPath) (f : String),
      ((rel, f) ∈ videoEntries tree ↔
        (∃ d ∈ tree.dirs, d.1 = rel ∧ f ∈ d.2) ∧
          strEndsWith (pyLower f) ".mp4" = true)) ∧
    (∀ (tree : InputTree) (rel : FPath) (f : String),
      ((rel, f) ∈ audioEntries tree ↔
        (∃ d ∈ tree.dirs, d.1 = rel ∧ f ∈ d.2) ∧
          (strEndsWith (pyLower f) "_audio.wav" = true ∨
           strEndsWith (pyLower f) ".mp3" = true ∨
           strEndsWith (pyLower f) ".aac" = true ∨
           strEndsWith (pyLower f) ".flac" = true))) ∧
    isVideoFile "VIDEO.MP4" = true ∧ isVideoFile "video.mp4" = true := by
  refine ⟨fun tree rel f => mem_videoEntries tree rel f, ?_, by decide, by decide⟩
  intro tree rel f
  rw [mem_audioEntries]
  have hiff : isAudioFile f = true ↔
      (strEndsWith (pyLower f) "_audio.wav" = true ∨
       strEndsWith (pyLower f) ".mp3" = true ∨
       strEndsWith (pyLower f) ".aac" = true ∨
       strEndsWith (pyLower f) ".flac" = true) := by
    simp [isAudioFile, Bool.or_eq_true, or_assoc]
  rw [hiff]

/-- Witness for C9: both spellings of the video suffix are selected, and
an audio suffix is selected by the transcribe job. -/
theorem C9_suffix_selection_witness :
    ([], "VIDEO.MP4") ∈ videoEntries (InputTree.mk [([], ["VIDEO.MP4"])]) ∧
    ([], "video.mp4") ∈ videoEntries (InputTree.mk [([], ["video.mp4"])]) ∧
    ([], "x_audio.wav") ∈ audioEntries (InputTree.mk [([], ["x_audio.wav"])]) :=
  ⟨(C9_suffix_selection.1 (InputTree.mk [([], ["VIDEO.MP4"])]) [] "VIDEO.MP4").mpr
     ⟨⟨([], ["VIDEO.MP4"]), by decide, rfl, by decide⟩, by decide⟩,
   (C9_suffix_selection.1 (InputTree.mk [([], ["video.mp4"])]) [] "video.mp4").mpr
     ⟨⟨([], ["video.mp4"]), by decide, rfl, by decide⟩, by decide⟩,
   (C9_suffix_selection.2.1 (InputTree.mk [([], ["x_audio.wav"])]) [] "x_audio.wav").mpr
     ⟨⟨([], ["x_audio.wav"]), by decide, rfl, by decide⟩, Or.inl (by decide)⟩⟩

/-! ### Split batch machinery (for C3 and C4) -/

theorem getLast_inputPath (inRoot : FPath) (e : FPath × String) :
    ((inputPath inRoot e).getLast?).getD "" = e.2 := by
  unfold inputPath
  rw [List.getLast?_concat]
  rfl

theorem split_notfound (fs : FS) (dem : DemuxCmd → Bool) (input_file : FPath)
    (od : Option FPath) (h : fs.pathExists input_file = false) :
    split_video_audio fs dem input_file od =
      ⟨.error (.fileNotFound input_file), [], fs⟩ := by
  rw [split_video_audio, if_pos h]

theorem split_vidfail (fs : FS) (dem : DemuxCmd → Bool) (input_file : FPath)
    (d : FPath) (h : fs.pathExists input_file = true) (hd : d ≠ [])
    (hv : dem .video = false) :
    split_video_audio fs dem input_file (some d) =
      ⟨.error (.calledProcessError .video), [.video], ensure fs d⟩ := by
  rw [split_video_audio, if_neg (by simp [h])]
  simp only [hv, hd]
  simp [hd]

theorem split_audfail (fs : FS) (dem : DemuxCmd → Bool) (input_file : FPath)
    (d : FPath) (h : fs.pathExists input_file = true) (hd : d ≠ [])
    (hv : dem .video = true) (ha : dem .audio = false) :
    split_video_audio fs dem input_file (some d) =
      ⟨.error (.calledProcessError .audio), [.video, .audio],
        (ensure fs d).write
          (d ++ [(splitext ((input_file.getLast?).getD "")).1 ++ "_video.mp4"])
          .media⟩ := by
  rw [split_video_audio, if_neg (by simp [h])]
  simp only [hv, ha, hd]
  simp [hd]

theorem split_ok (fs : FS) (dem : DemuxCmd → Bool) (input_file : FPath)
    (d : FPath) (h : fs.pathExists input_file = true) (hd : d ≠ [])
    (hv : dem .video = true) (ha : dem .audio = true) :
    split_video_audio fs dem input_file (some d) =
      ⟨.ok (d ++ [(splitext ((input_file.getLast?).getD "")).1 ++ "_video.mp4"],
            d ++ [(splitext ((input_file.getLast?).getD "")).1 ++ "_audio.wav"]),
        [.video, .audio],
        ((ensure fs d).write
            (d ++ [(splitext ((input_file.getLast?).getD "")).1 ++ "_video.mp4"])
            .media).write
          (d ++ [(splitext ((input_file.getLast?).getD "")).1 ++ "_audio.wav"])
          .media⟩ := by
  rw [split_video_audio, if_neg (by simp [h])]
  simp only [hv, ha, hd]
  simp [hd]

theorem splitStep_notfound (dem : FPath → DemuxCmd → Bool) (inRoot outRoot : FPath)
    (st : SState) (e : FPath × String)
    (h : st.fs.pathExists (inputPath inRoot e) = false) :
    splitStep dem inRoot outRoot st e = ⟨st.fs, st.count⟩ := by
  simp [splitStep, split_notfound st.fs (dem (inputPath inRoot e))
    (inputPath inRoot e) (some (mirrorDir outRoot e.1)) h]

theorem splitStep_vidfail (dem : FPath → DemuxCmd → Bool) (inRoot outRoot : FPath)
    (st : SState) (e : FPath × String) (hroot : outRoot ≠ [])
    (h : st.fs.pathExists (inputPath inRoot e) = true)
    (hv : dem (inputPath inRoot e) .video = false) :
    splitStep dem inRoot outRoot st e =
      ⟨ensure st.fs (mirrorDir outRoot e.1), st.count⟩ := by
  simp [splitStep, split_vidfail st.fs (dem (inputPath inRoot e))
    (inputPath inRoot e) (mirrorDir outRoot e.1) h
    (mirrorDir_ne_nil outRoot e.1 hroot) hv]

theorem splitStep_audfail (dem : FPath → DemuxCmd → Bool) (inRoot outRoot : FPath)
    (st : SState) (e : FPath × String) (hroot : outRoot ≠ [])
    (h : st.fs.pathExists (inputPath inRoot e) = true)
    (hv : dem (inputPath inRoot e) .video = true)
    (ha : dem (inputPath inRoot e) .audio = false) :
    splitStep dem inRoot outRoot st e =
      ⟨(ensure st.fs (mirrorDir outRoot e.1)).write (videoOutPath outRoot e) .media,
        st.count⟩ := by
  simp [splitStep, split_audfail st.fs (dem (inputPath inRoot e))
    (inputPath inRoot e) (mirrorDir outRoot e.1) h
    (mirrorDir_ne_nil outRoot e.1 hroot) hv ha, getLast_inputPath, videoOutPath]

theorem splitStep_ok (dem : FPath → DemuxCmd → Bool) (inRoot outRoot : FPath)
    (st : SState) (e : FPath × String) (hroot : outRoot ≠ [])
    (h : st.fs.pathExists (inputPath inRoot e) = true)
    (hv : dem (inputPath inRoot e) .video = true)
    (ha : dem (inputPath inRoot e) .audio = true) :
    splitStep dem inRoot outRoot st e =
      ⟨((ensure st.fs (mirrorDir outRoot e.1)).write (videoOutPath outRoot e)
          .media).write (audioOutPath outRoot e) .media,
        st.count + 1⟩ := by
  simp [splitStep, split_ok st.fs (dem (inputPath inRoot e))
    (inputPath inRoot e) (mirrorDir outRoot e.1) h
    (mirrorDir_ne_nil outRoot e.1 hroot) hv ha, getLast_inputPath,
    videoOutPath, audioOutPath]

theorem splitStep_spec (dem : FPath → DemuxCmd → Bool) (inRoot outRoot : FPath)
    (st : SState) (e : FPath × String) (hroot : outRoot ≠ [])
    (hin : st.fs.pathExists (inputPath inRoot e) = true) :
    ((splitStep dem inRoot outRoot st e).count =
        st.count + (if splitOk dem inRoot e = true then 1 else 0)) ∧
    (∀ p, st.fs.pathExists p = true →
      (splitStep dem inRoot outRoot st e).fs.pathExists p = true) ∧
    (splitOk dem inRoot e = true →
      (splitStep dem inRoot outRoot st e).fs.pathExists
          (videoOutPath outRoot e) = true ∧
        (splitStep dem inRoot outRoot st e).fs.pathExists
          (audioOutPath outRoot e) = true) ∧
    ((splitStep dem inRoot outRoot st e).fs.pathExists
      (mirrorDir outRoot e.1) = true) := by
  have hd := mirrorDir_ne_nil outRoot e.1 hroot
  by_cases hv : dem (inputPath inRoot e) .video = true
  · by_cases ha : dem (inputPath inRoot e) .audio = true
    · have hok : splitOk dem inRoot e = true := by simp [splitOk, hv, ha]
      rw [splitStep_ok dem inRoot outRoot st e hroot hin hv ha]
      refine ⟨by simp [hok], ?_, ?_, ?_⟩
      · intro p hp
        exact pathExists_write_mono _ _ _ _ (pathExists_write_mono _ _ _ _
          (pathExists_ensure_mono _ _ _ hp))
      · intro _
        exact ⟨pathExists_write_mono _ _ _ _ (pathExists_write_self _ _ _),
          pathExists_write_self _ _ _⟩
      · exact pathExists_write_mono _ _ _ _ (pathExists_write_mono _ _ _ _
          (pathExists_ensure_self _ _ hd))
    · rw [Bool.not_eq_true] at ha
      have hok : splitOk dem inRoot e = false := by simp [splitOk, ha]
      rw [splitStep_audfail dem inRoot outRoot st e hroot hin hv ha]
      refine ⟨by simp [hok], ?_, ?_, ?_⟩
      · intro p hp
        exact pathExists_write_mono _ _ _ _ (pathExists_ensure_mono _ _ _ hp)
      · intro hgood
        rw [hgood] at hok
        exact absurd hok (by simp)
      · exact pathExists_write_mono _ _ _ _ (pathExists_ensure_self _ _ hd)
  · rw [Bool.not_eq_true] at hv
    have hok : splitOk dem inRoot e = false := by simp [splitOk, hv]
    rw [splitStep_vidfail dem inRoot outRoot st e hroot hin hv]
    refine ⟨by simp [hok], ?_, ?_, ?_⟩
    · intro p hp
      exact pathExists_ensure_mono _ _ _ hp
    · intro hgood
      rw [hgood] at hok
      exact absurd hok (by simp)
    · exact pathExists_ensure_self _ _ hd

theorem foldl_splitStep_spec (dem : FPath → DemuxCmd → Bool)
    (inRoot outRoot : FPath) (hroot : outRoot ≠ []) :
    ∀ (E : List (FPath × String)) (st : SState),
      (∀ e ∈ E, st.fs.pathExists (inputPath inRoot e) = true) →
      ((E.foldl (splitStep dem inRoot outRoot) st).count =
          st.count + (E.filter (splitOk dem inRoot)).length ∧
        (∀ p, st.fs.pathExists p = true →
          (E.foldl (splitStep dem inRoot outRoot) st).fs.pathExists p = true) ∧
        (∀ e ∈ E, splitOk dem inRoot e = true →
          (E.foldl (splitStep dem inRoot outRoot) st).fs.pathExists
              (videoOutPath outRoot e) = true ∧
            (E.foldl (splitStep dem inRoot outRoot) st).fs.pathExists
              (audioOutPath outRoot e) = true) ∧
        (∀ e ∈ E,
          (E.foldl (splitStep dem inRoot outRoot) st).fs.pathExists
            (mirrorDir outRoot e.1) = true)) := by
  intro E
  induction E with
  | nil =>
    intro st _
    exact ⟨by simp, fun p hp => hp,
      fun e he => absurd he (List.not_mem_nil e),
      fun e he => absurd he (List.not_mem_nil e)⟩
  | cons a as ih =>
    intro st hin
    have hstep := splitStep_spec dem inRoot outRoot st a hroot
      (hin a (List.mem_cons_self a as))
    have hrec := ih (splitStep dem inRoot outRoot st a)
      (fun e he => hstep.2.1 _ (hin e (List.mem_cons_of_mem a he)))
    rw [List.foldl_cons]
    refine ⟨?_, fun p hp => hrec.2.1 p (hstep.2.1 p hp), ?_, ?_⟩
    · rw [hrec.1, hstep.1, List.filter_cons]
      by_cases hok : splitOk dem inRoot a = true
      · simp only [hok, if_pos, List.length_cons]
        omega
      · rw [Bool.not_eq_true] at hok
        simp only [hok]
        simp
    · intro e he hgood
      rcases List.mem_cons.mp he with rfl | he
      · have hout := hstep.2.2.1 hgood
        exact ⟨hrec.2.1 _ hout.1, hrec.2.1 _ hout.2⟩
      · exact hrec.2.2.1 e he hgood
    · intro e he
      rcases List.mem_cons.mp he with rfl | he
      · exact hrec.2.1 _ hstep.2.2.2
      · exact hrec.2.2.2 e he

/-! ### Transcribe batch counting (for C4) -/

theorem pathExists_ensure_false (fs : FS) (d p : FPath)
    (h1 : p ∉ ancestors d) (h2 : fs.pathExists p = false) :
    (ensure fs d).pathExists p = false := by
  rw [← Bool.not_eq_true]
  intro hq
  rcases pathExists_ensure_new fs d p hq with h | h
  · exact h1 h
  · rw [h2] at h
    exact absurd h (by simp)

theorem pathExists_write_false (fs : FS) (q p : FPath) (c : Content)
    (h1 : q ≠ p) (h2 : fs.pathExists p = false) :
    (fs.write q c).pathExists p = false := by
  rw [pathExists_write, h2, beq_eq_false_iff_ne.mpr h1]
  rfl

theorem foldl_tStep_count (o : TOracle) (inRoot outDir : FPath) :
    ∀ (E : List (FPath × String)) (st : TState),
      ((E.map (txtPath outDir)).Nodup) →
      (∀ e ∈ E, st.fs.pathExists (txtPath outDir e) = false) →
      (∀ e ∈ E, ∀ a ∈ E, txtPath outDir e ∉ ancestors (mirrorDir outDir a.1)) →
      ((E.foldl (tStep o inRoot outDir) st).count =
          st.count + (E.filter (goodT o inRoot outDir)).length ∧
        ∀ e ∈ E, goodT o inRoot outDir e = true →
          (E.foldl (tStep o inRoot outDir) st).fs.pathExists
            (txtPath outDir e) = true) := by
  intro E
  induction E with
  | nil =>
    intro st _ _ _
    exact ⟨by simp, fun e he => absurd he (List.not_mem_nil e)⟩
  | cons a as ih =>
    intro st hnd hfr hanc
    have hfra := hfr a (List.mem_cons_self a as)
    have hanca : txtPath outDir a ∉ ancestors (mirrorDir outDir a.1) :=
      hanc a (List.mem_cons_self a as) a (List.mem_cons_self a as)
    have h1 : (ensure st.fs (mirrorDir outDir a.1)).pathExists
        (txtPath outDir a) = false :=
      pathExists_ensure_false _ _ _ hanca hfra
    have hndtail : (as.map (txtPath outDir)).Nodup := by
      rw [List.map_cons, List.nodup_cons] at hnd
      exact hnd.2
    have hne_txt : ∀ e ∈ as, txtPath outDir e ≠ txtPath outDir a := by
      rw [List.map_cons, List.nodup_cons] at hnd
      intro e he heq
      exact hnd.1 (heq ▸ List.mem_map_of_mem (txtPath outDir) he)
    have hanctail : ∀ e ∈ as, ∀ b ∈ as,
        txtPath outDir e ∉ ancestors (mirrorDir outDir b.1) :=
      fun e he b hb => hanc e (List.mem_cons_of_mem a he) b (List.mem_cons_of_mem a hb)
    have hance : ∀ e ∈ as, txtPath outDir e ∉ ancestors (mirrorDir outDir a.1) :=
      fun e he => hanc e (List.mem_cons_of_mem a he) a (List.mem_cons_self a as)
    have hfr_ens : ∀ e ∈ as,
        (ensure st.fs (mirrorDir outDir a.1)).pathExists (txtPath outDir e) = false :=
      fun e he => pathExists_ensure_false _ _ _ (hance e he)
        (hfr e (List.mem_cons_of_mem a he))
    rw [List.foldl_cons]
    by_cases h2 : o.transcr (inputPath inRoot a) = ""
    · have hga : goodT o inRoot outDir a = false := by simp [goodT, h2]
      rw [tStep_empty o inRoot outDir st a h1 h2]
      have hrec := ih ⟨ensure st.fs (mirrorDir outDir a.1), st.count,
        st.invoked ++ [inputPath inRoot a]⟩ hndtail hfr_ens hanctail
      refine ⟨?_, ?_⟩
      · rw [hrec.1, List.filter_cons, hga]
        simp
      · intro e he hgood
        rcases List.mem_cons.mp he with rfl | he
        · rw [hgood] at hga
          exact absurd hga (by simp)
        · exact hrec.2 e he hgood
    · by_cases h3 : o.txtOk (txtPath outDir a) = true
      · by_cases h4 : o.jsonOk (jsonPath outDir a) = true
        · have hga : goodT o inRoot outDir a = true := by
            simp [goodT, beq_eq_false_iff_ne.mpr h2, h3, h4]
          rw [tStep_good o inRoot outDir st a h1 h2 h3 h4]
          have hfr2 : ∀ e ∈ as,
              (((ensure st.fs (mirrorDir outDir a.1)).write (txtPath outDir a)
                  (.text (o.transcr (inputPath inRoot a)))).write (jsonPath outDir a)
                  (.json ⟨joinPath (inputPath inRoot a),
                    o.transcr (inputPath inRoot a), "en"⟩)).pathExists
                (txtPath outDir e) = false := by
            intro e he
            refine pathExists_write_false _ _ _ _
              (Ne.symm (txtPath_ne_jsonPath outDir e a)) ?_
            refine pathExists_write_false _ _ _ _
              (Ne.symm (hne_txt e he)) ?_
            exact hfr_ens e he
          have hrec := ih ⟨((ensure st.fs (mirrorDir outDir a.1)).write
              (txtPath outDir a) (.text (o.transcr (inputPath inRoot a)))).write
              (jsonPath outDir a) (.json ⟨joinPath (inputPath inRoot a),
                o.transcr (inputPath inRoot a), "en"⟩),
            st.count + 1, st.invoked ++ [inputPath inRoot a]⟩ hndtail hfr2 hanctail
          refine ⟨?_, ?_⟩
          · rw [hrec.1, List.filter_cons, hga]
            simp only [if_pos, List.length_cons]
            omega
          · intro e he hgood
            rcases List.mem_cons.mp he with rfl | he
            · refine foldl_tStep_mono o inRoot outDir as _ _ ?_
              exact pathExists_write_mono _ _ _ _ (pathExists_write_self _ _ _)
            · exact hrec.2 e he hgood
        · rw [Bool.not_eq_true] at h4
          have hga : goodT o inRoot outDir a = false := by simp [goodT, h4]
          rw [tStep_jsonfail o inRoot outDir st a h1 h2 h3 h4]
          have hfr2 : ∀ e ∈ as,
              ((ensure st.fs (mirrorDir outDir a.1)).write (txtPath outDir a)
                  (.text (o.transcr (inputPath inRoot a)))).pathExists
                (txtPath outDir e) = false := by
            intro e he
            refine pathExists_write_false _ _ _ _
              (Ne.symm (hne_txt e he)) ?_
            exact hfr_ens e he
          have hrec := ih ⟨(ensure st.fs (mirrorDir outDir a.1)).write
              (txtPath outDir a) (.text (o.transcr (inputPath inRoot a))),
            st.count, st.invoked ++ [inputPath inRoot a]⟩ hndtail hfr2 hanctail
          refine ⟨?_, ?_⟩
          · rw [hrec.1, List.filter_cons, hga]
            simp
          · intro e he hgood
            rcases List.mem_cons.mp he with rfl | he
            · rw [hgood] at hga
              exact absurd hga (by simp)
            · exact hrec.2 e he hgood
      · rw [Bool.not_eq_true] at h3
        have hga : goodT o inRoot outDir a = false := by simp [goodT, h3]
        rw [tStep_nowrite o inRoot outDir st a h1 h2 h3]
        have hrec := ih ⟨ensure st.fs (mirrorDir outDir a.1), st.count,
          st.invoked ++ [inputPath inRoot a]⟩ hndtail hfr_ens hanctail
        refine ⟨?_, ?_⟩
        · rw [hrec.1, List.filter_cons, hga]
          simp
        · intro e he hgood
          rcases List.mem_cons.mp he with rfl | he
          · rw [hgood] at hga
            exact absurd hga (by simp)
          · exact hrec.2 e he hgood

/-! ### Exactly-one-failure counting (for C4) -/

theorem filter_length_unique_bad {α : Type} [BEq α] [LawfulBEq α]
    (good : α → Bool) (k : α) :
    ∀ E : List α, (∀ e ∈ E, (good e = false ↔ e = k)) → E.count k = 1 →
      ((E.filter good).length = E.length - 1 ∧
        ∀ e ∈ E, e ≠ k → good e = true) := by
  intro E
  induction E with
  | nil =>
    intro _ hc
    simp at hc
  | cons a as ih =>
    intro h hc
    have hother : ∀ e ∈ a :: as, e ≠ k → good e = true := by
      intro e he hne
      by_cases hg : good e = true
      · exact hg
      · rw [Bool.not_eq_true] at hg
        exact absurd ((h e he).mp hg) hne
    by_cases hak : a = k
    · subst hak
      have hga : good a = false := (h a (List.mem_cons_self a as)).mpr rfl
      have hc0 : as.count a = 0 := by
        rw [List.count_cons, if_pos (by simp)] at hc
        omega
      have hnotmem : a ∉ as := List.count_eq_zero.mp hc0
      have hall : ∀ e ∈ as, good e = true := by
        intro e he
        exact hother e (List.mem_cons_of_mem a he) (fun heq => hnotmem (heq ▸ he))
      refine ⟨?_, hother⟩
      rw [List.filter_cons, hga]
      simp only [Bool.false_eq_true, if_false, List.length_cons]
      rw [List.filter_eq_self.mpr hall]
      omega
    · have hga : good a = true := hother a (List.mem_cons_self a as) hak
      have hc1 : as.count k = 1 := by
        rw [List.count_cons, if_neg (by simp [hak])] at hc
        omega
      have hkmem : k ∈ as := List.count_pos_iff.mp (by omega)
      have hlen : 0 < as.length := List.length_pos.mpr (List.ne_nil_of_mem hkmem)
      have hrec := ih (fun e he => h e (List.mem_cons_of_mem a he)) hc1
      refine ⟨?_, hother⟩
      rw [List.filter_cons, hga]
      simp only [if_pos, List.length_cons]
      omega

/-- C4: fault isolation in both batch jobs.  Split job: if the matched
input files all exist and the demux collaborator fails on exactly one
entry `k` (appearing once), the batch does not abort, reports a
processed count of N-1, and every other entry's two output files exist
afterwards.  Transcribe job: over a fresh output tree, if the per-file
operation fails (empty transcription or failing write) on exactly one
entry `k2`, the batch reports N-1 and every other entry's `.txt` is
present afterwards; the failing entry contributes nothing to the count. -/
theorem C4_fault_isolation
    (dem : FPath → DemuxCmd → Bool) (inRoot outRoot : FPath) (tree : InputTree)
    (fs : FS) (k : FPath × String)
    (o : TOracle) (inRoot2 outDir2 : FPath) (tree2 : InputTree) (fs2 : FS)
    (k2 : FPath × String) :
    (outRoot ≠ [] →
     (∀ e ∈ videoEntries tree, fs.pathExists (inputPath inRoot e) = true) →
     (∀ e ∈ videoEntries tree, (splitOk dem inRoot e = false ↔ e = k)) →
     (videoEntries tree).count k = 1 →
     ((process_directory_recursively dem inRoot outRoot tree fs).count =
        (videoEntries tree).length - 1 ∧
      ∀ e ∈ videoEntries tree, e ≠ k →
        (process_directory_recursively dem inRoot outRoot tree fs).fs.pathExists
            (videoOutPath outRoot e) = true ∧
          (process_directory_recursively dem inRoot outRoot tree fs).fs.pathExists
            (audioOutPath outRoot e) = true)) ∧
    (tFresh outDir2 fs2 tree2 →
     (∀ e ∈ audioEntries tree2, (goodT o inRoot2 outDir2 e = false ↔ e = k2)) →
     (audioEntries tree2).count k2 = 1 →
     ((process_audio_directory o inRoot2 outDir2 tree2 fs2).count =
        (audioEntries tree2).length - 1 ∧
      ∀ e ∈ audioEntries tree2, e ≠ k2 →
        (process_audio_directory o inRoot2 outDir2 tree2 fs2).fs.pathExists
          (txtPath outDir2 e) = true)) := by
  constructor
  · intro hroot hin hiff hcount
    have hspec := foldl_splitStep_spec dem inRoot outRoot hroot
      (videoEntries tree) ⟨fs, 0⟩ hin
    have hbad := filter_length_unique_bad (splitOk dem inRoot) k
      (videoEntries tree) hiff hcount
    refine ⟨?_, fun e he hne => hspec.2.2.1 e he (hbad.2 e he hne)⟩
    have h1 : (process_directory_recursively dem inRoot outRoot tree fs).count =
        0 + ((videoEntries tree).filter (splitOk dem inRoot)).length := hspec.1
    rw [h1, hbad.1]
    omega
  · intro hfresh hiff hcount
    obtain ⟨hnd, hnotex, hancout, hancmir⟩ := hfresh
    have hfr0 : ∀ e ∈ audioEntries tree2,
        (ensure fs2 outDir2).pathExists (txtPath outDir2 e) = false :=
      fun e he => pathExists_ensure_false _ _ _ (hancout e he) (hnotex e he)
    have hspec := foldl_tStep_count o inRoot2 outDir2 (audioEntries tree2)
      ⟨ensure fs2 outDir2, 0, []⟩ hnd hfr0 hancmir
    have hbad := filter_length_unique_bad (goodT o inRoot2 outDir2) k2
      (audioEntries tree2) hiff hcount
    refine ⟨?_, fun e he hne => hspec.2 e he (hbad.2 e he hne)⟩
    have h1 : (process_audio_directory o inRoot2 outDir2 tree2 fs2).count =
        0 + ((audioEntries tree2).filter (goodT o inRoot2 outDir2)).length :=
      hspec.1
    rw [h1, hbad.1]
    omega

/-- Witness for C4: three videos with ffmpeg failing on `in/b.mp4` give
a count of 2; three audio files with the transcription failing soft on
`in/b.mp3` give a count of 2 and both other `.txt` files present. -/
theorem C4_fault_isolation_witness :
    ((process_directory_recursively demFailB ["in"] ["out"] treeVidABC
        fsVidABC).count = (videoEntries treeVidABC).length - 1 ∧
      ∀ e ∈ videoEntries treeVidABC, e ≠ ([], "b.mp4") →
        (process_directory_recursively demFailB ["in"] ["out"] treeVidABC
            fsVidABC).fs.pathExists (videoOutPath ["out"] e) = true ∧
          (process_directory_recursively demFailB ["in"] ["out"] treeVidABC
            fsVidABC).fs.pathExists (audioOutPath ["out"] e) = true) ∧
    ((process_audio_directory oSkipB ["in"] ["out"] treeABC ⟨[], []⟩).count =
        (audioEntries treeABC).length - 1 ∧
      ∀ e ∈ audioEntries treeABC, e ≠ ([], "b.mp3") →
        (process_audio_directory oSkipB ["in"] ["out"] treeABC
          ⟨[], []⟩).fs.pathExists (txtPath ["out"] e) = true) :=
  ⟨(C4_fault_isolation demFailB ["in"] ["out"] treeVidABC fsVidABC ([], "b.mp4")
      oSkipB ["in"] ["out"] treeABC ⟨[], []⟩ ([], "b.mp3")).1
     (by decide) (by decide) (by decide) (by decide),
   (C4_fault_isolation demFailB ["in"] ["out"] treeVidABC fsVidABC ([], "b.mp4")
      oSkipB ["in"] ["out"] treeABC ⟨[], []⟩ ([], "b.mp3")).2
     (by decide) (by decide) (by decide)⟩

/-! ### Output-tree mirroring (C3) -/

/-- C3 counterexample: the input tree contains a subdirectory `d` with
no matched files; after a full run of either batch job (on an initially
empty output filesystem) there is no output directory `out/d`: the
output tree does not mirror every input subdirectory, only those
reached by a matched file. -/
theorem C3_counterexample :
    (["d"], ([] : List String)) ∈ treeEmptyD.dirs ∧
    (process_audio_directory oHello ["in"] ["out"] treeEmptyD
      ⟨[], []⟩).fs.pathExists ["out", "d"] = false ∧
    (process_directory_recursively demAllOk ["in"] ["out"] treeEmptyD
      ⟨[], []⟩).fs.pathExists ["out", "d"] = false := by decide

/-- C3 amended: after a batch run, for every input subdirectory that
contains at least one matched file, the corresponding output
subdirectory exists at the same relative path under the (nonempty)
output root; subdirectories containing no matched files are not
mirrored.  For the split job this additionally assumes the matched
input files exist, since its directory creation happens inside the
per-file operation after the input-existence check. -/
theorem C3_amended_mirror (o : TOracle) (dem : FPath → DemuxCmd → Bool)
    (inRoot outDir inRoot2 outRoot : FPath) (tree tree2 : InputTree)
    (fs fs2 : FS) :
    (outDir ≠ [] → ∀ e ∈ audioEntries tree,
      (process_audio_directory o inRoot outDir tree fs).fs.pathExists
        (mirrorDir outDir e.1) = true) ∧
    (outRoot ≠ [] →
     (∀ e ∈ videoEntries tree2, fs2.pathExists (inputPath inRoot2 e) = true) →
     ∀ e ∈ videoEntries tree2,
      (process_directory_recursively dem inRoot2 outRoot tree2 fs2).fs.pathExists
        (mirrorDir outRoot e.1) = true) := by
  constructor
  · intro hroot e he
    have hdone := foldl_tStep_done o inRoot outDir (audioEntries tree)
      ⟨ensure fs outDir, 0, []⟩ e he
    rcases hdone.2 with h | h
    · exact h
    · exact absurd h (mirrorDir_ne_nil outDir e.1 hroot)
  · intro hroot hin e he
    exact (foldl_splitStep_spec dem inRoot2 outRoot hroot (videoEntries tree2)
      ⟨fs2, 0⟩ hin).2.2.2 e he

/-- Witness for C3's amended statement: a matched file in a nested
subdirectory forces the mirrored output subdirectory into existence in
both jobs. -/
theorem C3_amended_mirror_witness :
    (process_audio_directory oHello ["in"] ["out"] treeNestedAudio
      ⟨[], []⟩).fs.pathExists (mirrorDir ["out"] ["s"]) = true ∧
    (process_directory_recursively demAllOk ["in"] ["out"] treeNested
      ⟨[(["in", "s", "t", "a.mp4"], .media)], []⟩).fs.pathExists
        (mirrorDir ["out"] ["s", "t"]) = true :=
  ⟨(C3_amended_mirror oHello demAllOk ["in"] ["out"] ["in"] ["out"]
      treeNestedAudio treeNested ⟨[], []⟩
      ⟨[(["in", "s", "t", "a.mp4"], .media)], []⟩).1
     (by decide) (["s"], "x.mp3") (by decide),
   (C3_amended_mirror oHello demAllOk ["in"] ["out"] ["in"] ["out"]
      treeNestedAudio treeNested ⟨[], []⟩
      ⟨[(["in", "s", "t", "a.mp4"], .media)], []⟩).2
     (by decide) (by decide) (["s", "t"], "a.mp4") (by decide)⟩

end AutoAvsr
